import Mathlib

/-!
Shallow embedding of the splotty-labels preset persistence layer
(models.py and storage.py).

Python dicts are modelled as insertion-ordered association lists
(`List (κ × α)`); dict assignment `d[k] = v` is `setEntry` (update the
first entry in place when the key is present, append otherwise), and
`k in d` is `containsKey`.  Python sets of strings are `Finset String`.
A parsed JSON preset document is the structure `Doc`, with `Option`
fields modelling key absence exactly as `dict.get` observes it; a file
whose text fails `json.loads` is `FileContent.notJson`.  The file system
is an association list from structured paths to file contents, and
`save`'s two file-system effects (write the temp file, atomically
replace the target) are reified in `FsOp` so that crash points between
the operations are states of the model.
-/

/-- models.py: dataclass TreeNode.  `type` is the string "branch" or
"field" (a Literal annotation that Python does not enforce). -/
structure TreeNode where
  id : String
  name : String
  type : String
  parent_id : Option String
  children : List String := []
  expanded : Bool := true
  field_id : Option String := none
deriving DecidableEq

/-- models.py: dataclass FieldDef.  `tags` is a Python set of strings,
modelled as a `Finset`. -/
structure FieldDef where
  id : String
  label : String
  tags : Finset String := ∅
  origin_index : Option Int := none
deriving DecidableEq

/-- The shape of the optional `last_preview` snapshot
{"label_line": str, "data_line": str}. -/
structure LastPreview where
  label_line : String
  data_line : String
deriving DecidableEq

/-- models.py: dataclass Preset, with the dataclass default values.
`tree_nodes` and `fields` are Python dicts, modelled as insertion-ordered
association lists. -/
structure Preset where
  name : String
  device : String := ""
  baud : Int := 115200
  parity : String := "N"
  stopbits : Int := 1
  monitor_secs : Int := 3
  ui_max_preview : Int := 8
  ui_max_dynamic : Int := 3
  ui_max_help : Int := 2
  tree_nodes : List (String × TreeNode) := []
  fields : List (String × FieldDef) := []
  root_id : String := "root"
  last_preview : Option LastPreview := none
deriving DecidableEq

/-- storage.py: SCHEMA_VERSION = 1. -/
def SCHEMA_VERSION : Int := 1

/-- One value of a per-node JSON object as load reads it: `name?` and
`type?` are `none` exactly when the key is missing (then `nd["name"]` /
`nd["type"]` raises); the other keys are read with `dict.get`, which
does not distinguish a missing key from an explicit null for
`parent_id` / `field_id`.  `extra` lists unknown keys, which load never
reads. -/
structure NodeDoc where
  name? : Option String := none
  type? : Option String := none
  parent_id : Option String := none
  children? : Option (List String) := none
  expanded? : Option Bool := none
  field_id : Option String := none
  extra : List String := []
deriving DecidableEq

/-- One value of a per-field JSON object as load reads it. -/
structure FieldDoc where
  label? : Option String := none
  tags? : Option (List String) := none
  origin_index : Option Int := none
  extra : List String := []
deriving DecidableEq

/-- A parsed preset JSON document.  Every key load reads with a default
is an `Option` (`none` = key absent); `last_preview` is read with plain
`get`, which conflates absent and null.  `extra` lists unknown top-level
keys, which load never reads. -/
structure Doc where
  schema? : Option Int := none
  name? : Option String := none
  device? : Option String := none
  baud? : Option Int := none
  parity? : Option String := none
  stopbits? : Option Int := none
  monitor_secs? : Option Int := none
  ui_max_preview? : Option Int := none
  ui_max_dynamic? : Option Int := none
  ui_max_help? : Option Int := none
  root_id? : Option String := none
  last_preview : Option LastPreview := none
  tree_nodes? : Option (List (String × NodeDoc)) := none
  fields? : Option (List (String × FieldDoc)) := none
  extra : List String := []
deriving DecidableEq

/-- Contents of a file in the preset directory: either text that
`json.loads` rejects, or a parsed preset document. -/
inductive FileContent where
  | notJson : FileContent
  | json : Doc → FileContent
deriving DecidableEq

/-- A pathlib path, split into the directory part and the final file
name (all paths the storage layer touches are base_dir / file). -/
structure FsPath where
  dir : String
  fname : String
deriving DecidableEq

/-- The file system: an association list from paths to file contents
(unique paths, like a real directory). -/
abbrev FS := List (FsPath × FileContent)

section Assoc

variable {κ α : Type} [DecidableEq κ]

/-- First-match association lookup (Python `d[k]` / `d.get(k)`). -/
def lookupEntry : List (κ × α) → κ → Option α
  | [], _ => none
  | (k', v) :: rest, k => if k' = k then some v else lookupEntry rest k

/-- Python `k in d`. -/
def containsKey (l : List (κ × α)) (k : κ) : Bool :=
  l.any fun e => decide (e.1 = k)

/-- Python dict assignment `d[k] = v`: update the first entry with key
`k` in place, or append a new entry when the key is absent. -/
def setEntry : List (κ × α) → κ → α → List (κ × α)
  | [], k, v => [(k, v)]
  | (k', v') :: rest, k, v =>
      if k' = k then (k, v) :: rest else (k', v') :: setEntry rest k v

/-- Remove the entry with key `k` (used for the source of a rename). -/
def eraseKey : List (κ × α) → κ → List (κ × α)
  | [], _ => []
  | (k', v') :: rest, k =>
      if k' = k then rest else (k', v') :: eraseKey rest k

end Assoc

/-- A file-system effect performed by save: `writeFile` is
`tmp.write_text(...)`, `replaceFile src dst` is `src.replace(dst)`
(atomic rename of `src` over `dst`). -/
inductive FsOp where
  | writeFile : FsPath → FileContent → FsOp
  | replaceFile : FsPath → FsPath → FsOp
deriving DecidableEq

/-- Apply one file-system operation.  A rename whose source is missing
is unreachable in save (the temp file was just written). -/
def FsOp.apply (fs : FS) : FsOp → FS
  | .writeFile p c => setEntry fs p c
  | .replaceFile src dst =>
      match lookupEntry fs src with
      | none => fs
      | some c => setEntry (eraseKey fs src) dst c

/-- Apply a sequence of file-system operations in order. -/
def applyOps (fs : FS) (ops : List FsOp) : FS :=
  ops.foldl FsOp.apply fs

/-- storage.py: class Storage, holding the preset directory. -/
structure Storage where
  base_dir : String
deriving DecidableEq

/-- storage.py line 15: `self.base_dir / f"{name}.json"`. -/
def preset_path (st : Storage) (name : String) : FsPath :=
  ⟨st.base_dir, name ++ ".json"⟩

/-- storage.py line 67: `p.with_suffix(".json.tmp")` applied to
`base_dir / (name + ".json")`: the final `.json` suffix is replaced by
`.json.tmp`. -/
def tmp_path (st : Storage) (name : String) : FsPath :=
  ⟨st.base_dir, name ++ ".json.tmp"⟩

/-- pathlib `Path.stem` restricted to file names ending in `.json`
(the only names `glob("*.json")` yields): the name without its final
`.json` suffix, except that the bare name `.json` has no suffix at all
and is its own stem. -/
def stem (fname : String) : String :=
  if fname = ".json" then fname else fname.dropRight 5

/-- fnmatch of the glob pattern `*.json` against a file name: the name
ends with the characters `.json` (`*` may match the empty string). -/
def matchesJsonGlob (fname : String) : Bool :=
  ".json".data.isSuffixOf fname.data

/-- storage.py line 18:
`sorted(p.stem for p in self.base_dir.glob("*.json"))`.
`glob("*.json")` enumerates the files directly inside `base_dir` whose
name matches `*.json`, in unspecified order; `sorted` then orders the
stems lexicographically (Python compares strings by code points, which
is String's linear order). -/
def list_presets (st : Storage) (fs : FS) : List String :=
  List.insertionSort (· ≤ ·)
    ((fs.filter fun e =>
        decide (e.1.dir = st.base_dir) && matchesJsonGlob e.1.fname).map
      fun e => stem e.1.fname)

/-- The root TreeNode synthesized by load: both call sites (lines 25-27
and 60-62) construct `TreeNode(id=root_id, name="Root", type="branch",
parent_id=None)` with children `[]`, expanded `True`, field_id `None`
(passed explicitly at the first site, dataclass defaults at the
second). -/
def defaultRoot (rid : String) : TreeNode :=
  { id := rid, name := "Root", type := "branch", parent_id := none,
    children := [], expanded := true, field_id := none }

/-- The only error the loader surfaces: unparseable JSON
(json.JSONDecodeError) or a node object missing its required `name` or
`type` key (KeyError). -/
inductive LoadErr where
  | malformedDocument : LoadErr
deriving DecidableEq

/-- storage.py lines 23-28: the fresh preset returned when no file
exists — `Preset(name=name)` with a default root branch assigned into
its (empty) `tree_nodes`. -/
def freshPreset (name : String) : Preset :=
  let preset : Preset := { name := name }
  { preset with
    tree_nodes := setEntry preset.tree_nodes preset.root_id (defaultRoot preset.root_id) }

/-- storage.py lines 44-52: build one TreeNode from its document entry.
`nd["name"]` and `nd["type"]` raise when missing; the rest are `get`
with defaults. -/
def loadNode (nid : String) (nd : NodeDoc) : Except LoadErr TreeNode :=
  match nd.name?, nd.type? with
  | some nm, some ty =>
      .ok { id := nid, name := nm, type := ty, parent_id := nd.parent_id,
            children := nd.children?.getD [], expanded := nd.expanded?.getD true,
            field_id := nd.field_id }
  | _, _ => .error .malformedDocument

/-- storage.py line 43: the loop `for nid, nd in ...items()` assigning
`preset.tree_nodes[nid] = TreeNode(...)`, threading the dict being
built; the first bad node aborts the whole load. -/
def loadNodes : List (String × NodeDoc) → List (String × TreeNode) →
    Except LoadErr (List (String × TreeNode))
  | [], acc => .ok acc
  | (nid, nd) :: rest, acc =>
      match loadNode nid nd with
      | .error e => .error e
      | .ok t => loadNodes rest (setEntry acc nid t)

/-- storage.py lines 55-57: build one FieldDef from its document entry;
`label` defaults to the field id, `tags` is `set(...)` of the list. -/
def loadField (fid : String) (fd : FieldDoc) : FieldDef :=
  { id := fid, label := fd.label?.getD fid,
    tags := (fd.tags?.getD []).toFinset, origin_index := fd.origin_index }

/-- storage.py line 54: the loop `for fid, fd in ...items()` assigning
`preset.fields[fid] = FieldDef(...)`. -/
def loadFields : List (String × FieldDoc) → List (String × FieldDef) →
    List (String × FieldDef)
  | [], acc => acc
  | (fid, fd) :: rest, acc => loadFields rest (setEntry acc fid (loadField fid fd))

/-- storage.py lines 30-63: the tolerant loader applied to a parsed
document, including the ensure-root step of lines 59-62. -/
def loadDoc (name : String) (d : Doc) : Except LoadErr Preset :=
  match loadNodes (d.tree_nodes?.getD []) [] with
  | .error e => .error e
  | .ok nodes =>
      let rootId := d.root_id?.getD "root"
      let nodes' := if containsKey nodes rootId then nodes
                    else setEntry nodes rootId (defaultRoot rootId)
      .ok { name := d.name?.getD name,
            device := d.device?.getD "",
            baud := d.baud?.getD 115200,
            parity := d.parity?.getD "N",
            stopbits := d.stopbits?.getD 1,
            monitor_secs := d.monitor_secs?.getD 3,
            ui_max_preview := d.ui_max_preview?.getD 8,
            ui_max_dynamic := d.ui_max_dynamic?.getD 3,
            ui_max_help := d.ui_max_help?.getD 2,
            root_id := rootId,
            last_preview := d.last_preview,
            tree_nodes := nodes',
            fields := loadFields (d.fields?.getD []) [] }

/-- storage.py lines 20-63: `Storage.load`. -/
def load (st : Storage) (fs : FS) (name : String) : Except LoadErr Preset :=
  match lookupEntry fs (preset_path st name) with
  | none => .ok (freshPreset name)
  | some .notJson => .error .malformedDocument
  | some (.json d) => loadDoc name d

/-- storage.py lines 82-89: the per-node serialized object (no `id`
key is emitted — the node's position in `tree_nodes` is its key). -/
def nodeDoc (nd : TreeNode) : NodeDoc :=
  { name? := some nd.name, type? := some nd.type, parent_id := nd.parent_id,
    children? := some nd.children, expanded? := some nd.expanded,
    field_id := nd.field_id, extra := [] }

/-- storage.py line 93: the per-field serialized object;
`"tags": sorted(f.tags)`. -/
def fieldDoc (f : FieldDef) : FieldDoc :=
  { label? := some f.label, tags? := some (f.tags.sort (· ≤ ·)),
    origin_index := f.origin_index, extra := [] }

/-- storage.py lines 68-96: the full serialized document `data`. -/
def presetDoc (p : Preset) : Doc :=
  { schema? := some SCHEMA_VERSION,
    name? := some p.name,
    device? := some p.device,
    baud? := some p.baud,
    parity? := some p.parity,
    stopbits? := some p.stopbits,
    monitor_secs? := some p.monitor_secs,
    ui_max_preview? := some p.ui_max_preview,
    ui_max_dynamic? := some p.ui_max_dynamic,
    ui_max_help? := some p.ui_max_help,
    root_id? := some p.root_id,
    last_preview := p.last_preview,
    tree_nodes? := some (p.tree_nodes.map fun e => (e.1, nodeDoc e.2)),
    fields? := some (p.fields.map fun e => (e.1, fieldDoc e.2)),
    extra := [] }

/-- storage.py lines 97-98 as file-system effects: write the serialized
document to the sibling temp file, then rename it over the target. -/
def saveOps (st : Storage) (p : Preset) : List FsOp :=
  [ .writeFile (tmp_path st p.name) (.json (presetDoc p)),
    .replaceFile (tmp_path st p.name) (preset_path st p.name) ]

/-- storage.py lines 65-98: `Storage.save`, as the file system it
leaves behind. -/
def save (st : Storage) (fs : FS) (p : Preset) : FS :=
  applyOps fs (saveOps st p)

/-- A node document entry missing a required key (`name` or `type`). -/
def nodeMissingReq (nd : NodeDoc) : Bool :=
  nd.name?.isNone || nd.type?.isNone

/-- A parsed document the loader rejects: some tree_nodes entry lacks
`name` or `type`. -/
def docMalformed (d : Doc) : Bool :=
  (d.tree_nodes?.getD []).any fun e => nodeMissingReq e.2

/-- File contents the loader rejects: invalid JSON, or a malformed
document. -/
def contentMalformed : FileContent → Bool
  | .notJson => true
  | .json d => docMalformed d

section AssocLemmas

variable {κ α : Type} [DecidableEq κ]

theorem lookupEntry_setEntry_self (l : List (κ × α)) (k : κ) (v : α) :
    lookupEntry (setEntry l k v) k = some v := by
  induction l with
  | nil => simp [setEntry, lookupEntry]
  | cons e rest ih =>
      by_cases h : e.1 = k
      · simp [setEntry, h, lookupEntry]
      · simpa [setEntry, h, lookupEntry] using ih

theorem lookupEntry_setEntry_ne (l : List (κ × α)) (k k' : κ) (v : α) (h : k ≠ k') :
    lookupEntry (setEntry l k v) k' = lookupEntry l k' := by
  induction l with
  | nil => simp [setEntry, lookupEntry, h]
  | cons e rest ih =>
      by_cases he : e.1 = k
      · simp [setEntry, he, lookupEntry, h]
      · simp [setEntry, he, lookupEntry]
        by_cases he' : e.1 = k' <;> simp [he', ih]

theorem lookupEntry_eraseKey_ne (l : List (κ × α)) (k k' : κ) (h : k ≠ k') :
    lookupEntry (eraseKey l k) k' = lookupEntry l k' := by
  induction l with
  | nil => simp [eraseKey]
  | cons e rest ih =>
      by_cases he : e.1 = k
      · simp [eraseKey, he, lookupEntry, h]
      · simp [eraseKey, he, lookupEntry]
        by_cases he' : e.1 = k' <;> simp [he', ih]

theorem setEntry_of_not_contains (l : List (κ × α)) (k : κ) (v : α)
    (h : containsKey l k = false) : setEntry l k v = l ++ [(k, v)] := by
  induction l with
  | nil => simp [setEntry]
  | cons e rest ih =>
      simp [containsKey] at h
      simp [setEntry, h.1, ih (by simpa [containsKey] using h.2)]

theorem containsKey_setEntry_self (l : List (κ × α)) (k : κ) (v : α) :
    containsKey (setEntry l k v) k = true := by
  induction l with
  | nil => simp [setEntry, containsKey]
  | cons e rest ih =>
      by_cases he : e.1 = k
      · simp [setEntry, he, containsKey]
      · simpa [setEntry, he, containsKey] using ih

theorem containsKey_append (l l' : List (κ × α)) (k : κ) :
    containsKey (l ++ l') k = (containsKey l k || containsKey l' k) := by
  simp [containsKey]

theorem mem_setEntry (l : List (κ × α)) (k : κ) (v : α) (p : κ × α)
    (h : p ∈ setEntry l k v) : p = (k, v) ∨ p ∈ l := by
  induction l with
  | nil => simpa [setEntry] using h
  | cons e rest ih =>
      by_cases he : e.1 = k
      · simp [setEntry, he] at h
        rcases h with h | h
        · exact Or.inl h
        · exact Or.inr (List.mem_cons_of_mem _ h)
      · simp [setEntry, he] at h
        rcases h with h | h
        · exact Or.inr (by simp [h])
        · rcases ih h with h' | h'
          · exact Or.inl h'
          · exact Or.inr (List.mem_cons_of_mem _ h')

theorem foldl_setEntry_append : ∀ (l acc : List (κ × α)),
    (l.map Prod.fst).Nodup → (∀ p ∈ l, containsKey acc p.1 = false) →
    l.foldl (fun a e => setEntry a e.1 e.2) acc = acc ++ l
  | [], acc, _, _ => by simp
  | e :: l, acc, hnd, hdisj => by
      have h1 : containsKey acc e.1 = false := hdisj e (List.mem_cons_self e l)
      have hstep : setEntry acc e.1 e.2 = acc ++ [e] := by
        simpa using setEntry_of_not_contains acc e.1 e.2 h1
      have hnd0 : (e.1 :: l.map Prod.fst).Nodup := by simpa using hnd
      have hnd' : (l.map Prod.fst).Nodup := hnd0.of_cons
      have hhead : e.1 ∉ l.map Prod.fst := (List.nodup_cons.mp hnd0).1
      have hdisj' : ∀ p ∈ l, containsKey (acc ++ [e]) p.1 = false := by
        intro p hp
        have hne : e.1 ≠ p.1 := by
          intro hcontra
          exact hhead (hcontra ▸ List.mem_map_of_mem Prod.fst hp)
        have : containsKey [e] p.1 = false := by
          simp [containsKey, hne]
        simp [containsKey_append, hdisj p (List.mem_cons_of_mem _ hp), this]
      calc (e :: l).foldl (fun a e => setEntry a e.1 e.2) acc
          = l.foldl (fun a e => setEntry a e.1 e.2) (acc ++ [e]) := by simp [hstep]
        _ = (acc ++ [e]) ++ l := foldl_setEntry_append l (acc ++ [e]) hnd' hdisj'
        _ = acc ++ e :: l := by simp

end AssocLemmas

theorem tmp_path_ne_preset_path (st : Storage) (n : String) :
    tmp_path st n ≠ preset_path st n := by
  intro h
  have hf : (n ++ ".json.tmp") = (n ++ ".json") := congrArg FsPath.fname h
  have hl : (n ++ ".json.tmp").length = (n ++ ".json").length := congrArg String.length hf
  have h9 : ".json.tmp".length = 9 := rfl
  have h5 : ".json".length = 5 := rfl
  simp only [String.length_append, h9, h5] at hl
  omega

theorem loadNode_error_iff (nid : String) (nd : NodeDoc) :
    loadNode nid nd = .error .malformedDocument ↔ nodeMissingReq nd = true := by
  cases hn : nd.name? <;> cases ht : nd.type? <;>
    simp [loadNode, nodeMissingReq, hn, ht]

theorem loadNode_id (nid : String) (nd : NodeDoc) (t : TreeNode)
    (h : loadNode nid nd = .ok t) : t.id = nid := by
  cases hn : nd.name? <;> cases ht : nd.type? <;> simp [loadNode, hn, ht] at h
  rw [← h]

theorem loadNodes_error_iff : ∀ (l : List (String × NodeDoc)) (acc : List (String × TreeNode)),
    (loadNodes l acc = .error .malformedDocument ↔ (l.any fun e => nodeMissingReq e.2) = true)
  | [], acc => by simp [loadNodes]
  | (nid, nd) :: rest, acc => by
      cases h : loadNode nid nd with
      | error e =>
          cases e
          have hm : nodeMissingReq nd = true := (loadNode_error_iff nid nd).mp h
          simp [loadNodes, h, hm]
      | ok t =>
          have hm : nodeMissingReq nd = false := by
            by_contra hc
            have hbad : loadNode nid nd = .error .malformedDocument :=
              (loadNode_error_iff nid nd).mpr (by revert hc; cases nodeMissingReq nd <;> simp)
            rw [h] at hbad
            exact Except.noConfusion hbad
          simp [loadNodes, h, hm, loadNodes_error_iff rest (setEntry acc nid t)]

theorem loadNodes_ok_id : ∀ (l : List (String × NodeDoc)) (acc out : List (String × TreeNode)),
    loadNodes l acc = .ok out → (∀ p ∈ acc, p.2.id = p.1) → ∀ p ∈ out, p.2.id = p.1
  | [], acc, out, h, hacc => by
      simp [loadNodes] at h
      exact h ▸ hacc
  | (nid, nd) :: rest, acc, out, h, hacc => by
      cases hn : loadNode nid nd with
      | error e => simp [loadNodes, hn] at h
      | ok t =>
          simp only [loadNodes, hn] at h
          refine loadNodes_ok_id rest (setEntry acc nid t) out h ?_
          intro p hp
          rcases mem_setEntry acc nid t p hp with h' | h'
          · rw [h']
            exact loadNode_id nid nd t hn
          · exact hacc p h'

theorem loadFields_id : ∀ (l : List (String × FieldDoc)) (acc : List (String × FieldDef)),
    (∀ p ∈ acc, p.2.id = p.1) → ∀ p ∈ loadFields l acc, p.2.id = p.1
  | [], acc, hacc => by simpa [loadFields] using hacc
  | (fid, fd) :: rest, acc, hacc => by
      refine loadFields_id rest (setEntry acc fid (loadField fid fd)) ?_
      intro p hp
      rcases mem_setEntry acc fid (loadField fid fd) p hp with h' | h'
      · rw [h']
        rfl
      · exact hacc p h'

theorem loadNodes_map_nodeDoc : ∀ (l : List (String × TreeNode)) (acc : List (String × TreeNode)),
    (∀ p ∈ l, p.2.id = p.1) →
    loadNodes (l.map fun e => (e.1, nodeDoc e.2)) acc =
      .ok (l.foldl (fun a e => setEntry a e.1 e.2) acc)
  | [], acc, _ => by simp [loadNodes]
  | (k, nd) :: rest, acc, h => by
      have hid : nd.id = k := h (k, nd) (List.mem_cons_self _ _)
      have hstep : loadNode k (nodeDoc nd) = .ok nd := by
        subst hid
        rfl
      simp only [List.map_cons, loadNodes, hstep, List.foldl_cons]
      exact loadNodes_map_nodeDoc rest (setEntry acc k nd)
        (fun p hp => h p (List.mem_cons_of_mem _ hp))

theorem loadField_fieldDoc (f : FieldDef) : loadField f.id (fieldDoc f) = f := by
  have hs : ((f.tags.sort (· ≤ ·)).toFinset) = f.tags := Finset.sort_toFinset _ _
  simp [loadField, fieldDoc, hs]

theorem loadFields_map_fieldDoc : ∀ (l : List (String × FieldDef)) (acc : List (String × FieldDef)),
    (∀ p ∈ l, p.2.id = p.1) →
    loadFields (l.map fun e => (e.1, fieldDoc e.2)) acc =
      l.foldl (fun a e => setEntry a e.1 e.2) acc
  | [], acc, _ => by simp [loadFields]
  | (k, f) :: rest, acc, h => by
      have hid : f.id = k := h (k, f) (List.mem_cons_self _ _)
      have hstep : loadField k (fieldDoc f) = f := by
        subst hid
        exact loadField_fieldDoc f
      simp only [List.map_cons, loadFields, hstep, List.foldl_cons]
      exact loadFields_map_fieldDoc rest (setEntry acc k f)
        (fun p hp => h p (List.mem_cons_of_mem _ hp))

theorem lookup_write_tmp (st : Storage) (fs : FS) (n : String) (c : FileContent) :
    lookupEntry (FsOp.apply fs (.writeFile (tmp_path st n) c)) (preset_path st n) =
      lookupEntry fs (preset_path st n) := by
  simpa [FsOp.apply] using
    lookupEntry_setEntry_ne fs (tmp_path st n) (preset_path st n) c (tmp_path_ne_preset_path st n)

theorem lookup_save_self (st : Storage) (fs : FS) (p : Preset) :
    lookupEntry (save st fs p) (preset_path st p.name) = some (.json (presetDoc p)) := by
  have h1 := lookupEntry_setEntry_self fs (tmp_path st p.name) (FileContent.json (presetDoc p))
  simp [save, applyOps, saveOps, FsOp.apply, h1, lookupEntry_setEntry_self]

theorem loadDoc_error_iff (name : String) (d : Doc) :
    loadDoc name d = .error .malformedDocument ↔ docMalformed d = true := by
  unfold loadDoc docMalformed
  cases h : loadNodes (d.tree_nodes?.getD []) [] with
  | error e =>
      cases e
      simp [(loadNodes_error_iff (d.tree_nodes?.getD []) []).mp h]
  | ok nodes =>
      have hn := loadNodes_error_iff (d.tree_nodes?.getD []) []
      rw [h] at hn
      simp only [false_iff, reduceCtorEq] at hn
      simp [Bool.not_eq_true] at hn
      simpa using hn

theorem loadDoc_ok_elim (name : String) (d : Doc) (P : Preset)
    (h : loadDoc name d = .ok P) :
    ∃ nodes, loadNodes (d.tree_nodes?.getD []) [] = .ok nodes ∧
      P = { name := d.name?.getD name, device := d.device?.getD "",
            baud := d.baud?.getD 115200, parity := d.parity?.getD "N",
            stopbits := d.stopbits?.getD 1, monitor_secs := d.monitor_secs?.getD 3,
            ui_max_preview := d.ui_max_preview?.getD 8,
            ui_max_dynamic := d.ui_max_dynamic?.getD 3,
            ui_max_help := d.ui_max_help?.getD 2,
            root_id := d.root_id?.getD "root", last_preview := d.last_preview,
            tree_nodes := (if containsKey nodes (d.root_id?.getD "root") then nodes
                           else setEntry nodes (d.root_id?.getD "root")
                                  (defaultRoot (d.root_id?.getD "root"))),
            fields := loadFields (d.fields?.getD []) [] } := by
  unfold loadDoc at h
  cases hn : loadNodes (d.tree_nodes?.getD []) [] with
  | error e =>
      rw [hn] at h
      exact Except.noConfusion h
  | ok nodes =>
      rw [hn] at h
      exact ⟨nodes, rfl, (Except.ok.inj h).symm⟩

theorem load_ok_elim (st : Storage) (fs : FS) (name : String) (P : Preset)
    (h : load st fs name = .ok P) :
    (lookupEntry fs (preset_path st name) = none ∧ P = freshPreset name) ∨
    (∃ d, lookupEntry fs (preset_path st name) = some (.json d) ∧ loadDoc name d = .ok P) := by
  unfold load at h
  cases hl : lookupEntry fs (preset_path st name) with
  | none =>
      rw [hl] at h
      exact Or.inl ⟨rfl, (Except.ok.inj h).symm⟩
  | some c =>
      cases c with
      | notJson =>
          rw [hl] at h
          exact Except.noConfusion h
      | json d =>
          rw [hl] at h
          exact Or.inr ⟨d, rfl, h⟩

theorem loadDoc_presetDoc (P : Preset)
    (hnk : (P.tree_nodes.map Prod.fst).Nodup)
    (hni : ∀ p ∈ P.tree_nodes, p.2.id = p.1)
    (hroot : containsKey P.tree_nodes P.root_id = true)
    (hfk : (P.fields.map Prod.fst).Nodup)
    (hfi : ∀ p ∈ P.fields, p.2.id = p.1) :
    loadDoc P.name (presetDoc P) = .ok P := by
  have hnodes : loadNodes ((presetDoc P).tree_nodes?.getD []) [] = .ok P.tree_nodes := by
    have h1 := loadNodes_map_nodeDoc P.tree_nodes [] hni
    have h2 : P.tree_nodes.foldl (fun a e => setEntry a e.1 e.2) [] = P.tree_nodes := by
      simpa using foldl_setEntry_append P.tree_nodes [] hnk (fun p _ => rfl)
    rw [h2] at h1
    exact h1
  have hfields : loadFields ((presetDoc P).fields?.getD []) [] = P.fields := by
    have h1 := loadFields_map_fieldDoc P.fields [] hfi
    have h2 : P.fields.foldl (fun a e => setEntry a e.1 e.2) [] = P.fields := by
      simpa using foldl_setEntry_append P.fields [] hfk (fun p _ => rfl)
    rw [h2] at h1
    exact h1
  unfold loadDoc
  rw [hnodes]
  simp only [Option.getD_some]
  rw [hfields]
  simp [presetDoc, hroot]

/-- C1 counterexample: the round-trip law fails for a Preset whose
`tree_nodes` does not contain its `root_id` — here the default-empty
Preset named "p".  Saving and reloading it yields a preset whose
`tree_nodes` has a synthesized root and so differs from the original's
empty mapping. -/
theorem C1_roundtrip_cex :
    load ⟨"d"⟩ (save ⟨"d"⟩ [] { name := "p" }) "p" =
      .ok { name := "p", tree_nodes := [("root", defaultRoot "root")] } ∧
    ({ name := "p", tree_nodes := [("root", defaultRoot "root")] } : Preset).tree_nodes ≠
      ({ name := "p" } : Preset).tree_nodes := by
  constructor
  · rfl
  · simp

/-- C1 (amended): for every Preset satisfying the dict-representation
invariants (keys distinct, each node's and field's `id` equal to its
key) whose `tree_nodes` contains its `root_id`, Save followed by Load
of the preset's name returns the preset exactly — `tree_nodes`,
`fields` (tags are sets), and all scalar settings included. -/
theorem C1_roundtrip (st : Storage) (fs : FS) (P : Preset)
    (hnk : (P.tree_nodes.map Prod.fst).Nodup)
    (hni : ∀ p ∈ P.tree_nodes, p.2.id = p.1)
    (hroot : containsKey P.tree_nodes P.root_id = true)
    (hfk : (P.fields.map Prod.fst).Nodup)
    (hfi : ∀ p ∈ P.fields, p.2.id = p.1) :
    load st (save st fs P) P.name = .ok P := by
  unfold load
  rw [lookup_save_self st fs P]
  exact loadDoc_presetDoc P hnk hni hroot hfk hfi

/-- C1 witness: the round-trip theorem applied to a concrete preset
with a root, one field node and one tagged field. -/
theorem C1_roundtrip_witness :
    load ⟨"d"⟩
        (save ⟨"d"⟩ []
          { name := "p",
            tree_nodes := [("root", defaultRoot "root"),
              ("a", { id := "a", name := "A", type := "field", parent_id := some "root",
                      children := [], expanded := false, field_id := some "f" })],
            fields := [("f", { id := "f", label := "F",
                               tags := {"x", "y"}, origin_index := some 3 })] })
        "p" =
      .ok { name := "p",
            tree_nodes := [("root", defaultRoot "root"),
              ("a", { id := "a", name := "A", type := "field", parent_id := some "root",
                      children := [], expanded := false, field_id := some "f" })],
            fields := [("f", { id := "f", label := "F",
                               tags := {"x", "y"}, origin_index := some 3 })] } :=
  C1_roundtrip ⟨"d"⟩ []
    { name := "p",
      tree_nodes := [("root", defaultRoot "root"),
        ("a", { id := "a", name := "A", type := "field", parent_id := some "root",
                children := [], expanded := false, field_id := some "f" })],
      fields := [("f", { id := "f", label := "F",
                         tags := {"x", "y"}, origin_index := some 3 })] }
    (by decide) (by decide) (by decide) (by decide) (by decide)

/-- C2: save is atomic.  (1) Writing any content (even a torn, partial
one) to the sibling temp file leaves the target path's contents
unchanged; (2) after any prefix of save's file-system operations that
stops before the final rename, the target path still holds exactly what
it held before; (3) after the rename, the target holds the complete
serialized document (valid JSON, never truncated). -/
theorem C2_save_atomic (st : Storage) (fs : FS) (P : Preset) :
    (∀ c : FileContent,
        lookupEntry (FsOp.apply fs (.writeFile (tmp_path st P.name) c))
            (preset_path st P.name) =
          lookupEntry fs (preset_path st P.name)) ∧
    (∀ k, k < (saveOps st P).length →
        lookupEntry (applyOps fs ((saveOps st P).take k)) (preset_path st P.name) =
          lookupEntry fs (preset_path st P.name)) ∧
    lookupEntry (save st fs P) (preset_path st P.name) = some (.json (presetDoc P)) := by
  refine ⟨fun c => lookup_write_tmp st fs P.name c, fun k hk => ?_, lookup_save_self st fs P⟩
  have hk2 : k < 2 := by simpa [saveOps] using hk
  interval_cases k
  · rfl
  · simpa [saveOps, applyOps] using
      lookup_write_tmp st fs P.name (.json (presetDoc P))

/-- C2 witness: for a first save of preset "p" into an empty directory,
the state after the temp-file write (the prefix of length 1) still has
no file at the target path, and the completed save leaves the full
document there. -/
theorem C2_save_atomic_witness :
    lookupEntry (applyOps [] ((saveOps ⟨"d"⟩ { name := "p" }).take 1))
        (preset_path ⟨"d"⟩ "p") = none ∧
    lookupEntry (save ⟨"d"⟩ [] { name := "p" }) (preset_path ⟨"d"⟩ "p") =
      some (.json (presetDoc { name := "p" })) :=
  ⟨((C2_save_atomic ⟨"d"⟩ [] { name := "p" }).2.1 1 (by decide)).trans rfl,
   (C2_save_atomic ⟨"d"⟩ [] { name := "p" }).2.2⟩

/-- C3: load fails (with the one surfaced error, MalformedDocument) if
and only if the file for the requested name exists and either its text
is not valid JSON or some tree_nodes entry lacks the `name` or `type`
key; and load ignores unknown keys at the document, node and field
levels (its result does not depend on them). -/
theorem C3_load_error_iff :
    (∀ (st : Storage) (fs : FS) (name : String),
        (load st fs name = .error .malformedDocument ↔
          ∃ c, lookupEntry fs (preset_path st name) = some c ∧ contentMalformed c = true)) ∧
    (∀ (name : String) (d : Doc) (e : List String),
        loadDoc name { d with extra := e } = loadDoc name d) ∧
    (∀ (nid : String) (nd : NodeDoc) (e : List String),
        loadNode nid { nd with extra := e } = loadNode nid nd) ∧
    (∀ (fid : String) (fd : FieldDoc) (e : List String),
        loadField fid { fd with extra := e } = loadField fid fd) := by
  refine ⟨fun st fs name => ?_, fun name d e => rfl, fun nid nd e => rfl, fun fid fd e => rfl⟩
  unfold load
  cases hl : lookupEntry fs (preset_path st name) with
  | none => simp
  | some c =>
      cases c with
      | notJson => simp [contentMalformed]
      | json d =>
          constructor
          · intro h
            exact ⟨.json d, rfl, (loadDoc_error_iff name d).mp h⟩
          · rintro ⟨c, hc, hm⟩
            obtain rfl : c = .json d := (Option.some.inj hc).symm
            exact (loadDoc_error_iff name d).mpr hm

/-- C4: when no file exists for the requested name, load returns a
Preset with that name whose tree_nodes is exactly the single root node
(key "root" = the default root_id; type "branch", parent_id absent,
empty children, expanded true), all other settings at their defaults.
The embedded load is a pure function of the file system, so it performs
no write. -/
theorem C4_load_missing_file (st : Storage) (fs : FS) (name : String)
    (h : lookupEntry fs (preset_path st name) = none) :
    load st fs name =
      .ok { name := name,
            tree_nodes := [("root",
              { id := "root", name := "Root", type := "branch", parent_id := none,
                children := [], expanded := true, field_id := none })] } := by
  unfold load
  rw [h]
  rfl

/-- C4 witness: loading the name "demo" from an empty directory. -/
theorem C4_load_missing_file_witness :
    load ⟨"d"⟩ [] "demo" =
      .ok { name := "demo",
            tree_nodes := [("root",
              { id := "root", name := "Root", type := "branch", parent_id := none,
                children := [], expanded := true, field_id := none })] } :=
  C4_load_missing_file ⟨"d"⟩ [] "demo" rfl

theorem loadDoc_ok_intro (name : String) (d : Doc) (nodes : List (String × TreeNode))
    (hn : loadNodes (d.tree_nodes?.getD []) [] = .ok nodes) :
    loadDoc name d =
      .ok { name := d.name?.getD name, device := d.device?.getD "",
            baud := d.baud?.getD 115200, parity := d.parity?.getD "N",
            stopbits := d.stopbits?.getD 1, monitor_secs := d.monitor_secs?.getD 3,
            ui_max_preview := d.ui_max_preview?.getD 8,
            ui_max_dynamic := d.ui_max_dynamic?.getD 3,
            ui_max_help := d.ui_max_help?.getD 2,
            root_id := d.root_id?.getD "root", last_preview := d.last_preview,
            tree_nodes := (if containsKey nodes (d.root_id?.getD "root") then nodes
                           else setEntry nodes (d.root_id?.getD "root")
                                  (defaultRoot (d.root_id?.getD "root"))),
            fields := loadFields (d.fields?.getD []) [] } := by
  unfold loadDoc
  rw [hn]

/-- C5: (1) on a document whose reconstructed tree_nodes lacks the
document's root_id, load succeeds (given the nodes loaded) with a
default root appended after the reconstructed nodes, which are
otherwise unchanged, and the preset's root_id set to the document's;
(2) every Preset load returns has its root_id among its tree_nodes
keys. -/
theorem C5_missing_root_inserted :
    (∀ (st : Storage) (fs : FS) (name : String) (d : Doc)
        (nodes : List (String × TreeNode)),
        lookupEntry fs (preset_path st name) = some (.json d) →
        loadNodes (d.tree_nodes?.getD []) [] = .ok nodes →
        containsKey nodes (d.root_id?.getD "root") = false →
        ∃ P, load st fs name = .ok P ∧
          P.tree_nodes =
            nodes ++ [(d.root_id?.getD "root", defaultRoot (d.root_id?.getD "root"))] ∧
          P.root_id = d.root_id?.getD "root") ∧
    (∀ (st : Storage) (fs : FS) (name : String) (P : Preset),
        load st fs name = .ok P → containsKey P.tree_nodes P.root_id = true) := by
  constructor
  · intro st fs name d nodes hl hn hc
    have hload : load st fs name = loadDoc name d := by
      unfold load
      rw [hl]
    have hld := loadDoc_ok_intro name d nodes hn
    have hif : (if containsKey nodes (d.root_id?.getD "root") then nodes
                else setEntry nodes (d.root_id?.getD "root")
                       (defaultRoot (d.root_id?.getD "root"))) =
        nodes ++ [(d.root_id?.getD "root", defaultRoot (d.root_id?.getD "root"))] := by
      rw [if_neg (by simp [hc])]
      exact setEntry_of_not_contains nodes _ _ hc
    rw [hif] at hld
    exact ⟨_, hload.trans hld, rfl, rfl⟩
  · intro st fs name P h
    rcases load_ok_elim st fs name P h with ⟨_, hP⟩ | ⟨d, _, hld⟩
    · subst hP
      rfl
    · rcases loadDoc_ok_elim name d P hld with ⟨nodes, _, hP⟩
      subst hP
      by_cases hc : containsKey nodes (d.root_id?.getD "root") = true
      · simp [hc]
      · simp only [Bool.not_eq_true] at hc
        simp only [hc, if_false]
        exact containsKey_setEntry_self nodes (d.root_id?.getD "root")
          (defaultRoot (d.root_id?.getD "root"))

/-- C5 witness: a stored document with no tree_nodes section at all
(so the reconstructed mapping is empty and lacks "root"). -/
theorem C5_missing_root_inserted_witness :
    ∃ P, load ⟨"d"⟩ [(preset_path ⟨"d"⟩ "p", .json {})] "p" = .ok P ∧
      P.tree_nodes = [] ++ [("root", defaultRoot "root")] ∧
      P.root_id = "root" :=
  C5_missing_root_inserted.1 ⟨"d"⟩ [(preset_path ⟨"d"⟩ "p", .json {})] "p" {} [] rfl rfl rfl

/-- C6: tags are order-independent and deduplicated across
persistence: (1) reloading a saved field's tags gives back exactly the
field's tag set; (2) the serialized (sorted) tags are identical for tag
sets built from any two permutations of the same insertion order;
(3) loading any tags list produces its deduplicated set. -/
theorem C6_tags_roundtrip :
    (∀ (f : FieldDef) (fid : String), (loadField fid (fieldDoc f)).tags = f.tags) ∧
    (∀ (i lab : String) (oi : Option Int) (l1 l2 : List String), l1.Perm l2 →
        fieldDoc { id := i, label := lab, tags := l1.toFinset, origin_index := oi } =
          fieldDoc { id := i, label := lab, tags := l2.toFinset, origin_index := oi }) ∧
    (∀ (fid : String) (fd : FieldDoc) (l : List String), fd.tags? = some l →
        (loadField fid fd).tags = l.toFinset) := by
  refine ⟨fun f fid => ?_, fun i lab oi l1 l2 hperm => ?_, fun fid fd l h => ?_⟩
  · simp [loadField, fieldDoc, Finset.sort_toFinset]
  · rw [List.toFinset_eq_of_perm l1 l2 hperm]
  · simp [loadField, h]

/-- C6 witness: tags built as ["x","y"] and as ["y","x"] serialize to
the same field document, and loading a duplicated list ["x","x","y"]
collapses it to the set of "x" and "y". -/
theorem C6_tags_roundtrip_witness :
    fieldDoc { id := "f", label := "F", tags := (["x", "y"] : List String).toFinset } =
      fieldDoc { id := "f", label := "F", tags := (["y", "x"] : List String).toFinset } ∧
    (loadField "f" { tags? := some ["x", "x", "y"] }).tags =
      (["x", "x", "y"] : List String).toFinset :=
  ⟨C6_tags_roundtrip.2.1 "f" "F" none ["x", "y"] ["y", "x"] (by decide),
   C6_tags_roundtrip.2.2 "f" { tags? := some ["x", "x", "y"] } ["x", "x", "y"] rfl⟩

/-- C7: list_presets returns the stems of exactly the `.json` files
directly in base_dir, sorted in String's lexicographic (case-sensitive,
code-point) order: the result is sorted, is a permutation of the
matching files' stems, equals ["a","b"] on a directory holding b.json
and a.json, and is empty on an empty directory. -/
theorem C7_list_presets_sorted :
    (∀ (st : Storage) (fs : FS), List.Sorted (· ≤ ·) (list_presets st fs)) ∧
    (∀ (st : Storage) (fs : FS),
        (list_presets st fs).Perm
          ((fs.filter fun e =>
              decide (e.1.dir = st.base_dir) && matchesJsonGlob e.1.fname).map
            fun e => stem e.1.fname)) ∧
    list_presets ⟨"d"⟩ [(⟨"d", "b.json"⟩, .notJson), (⟨"d", "a.json"⟩, .notJson)] =
      ["a", "b"] ∧
    (∀ st : Storage, list_presets st [] = []) := by
  refine ⟨fun st fs => List.sorted_insertionSort _ _,
          fun st fs => List.perm_insertionSort _ _, ?_, fun st => rfl⟩
  have hba : ¬ (("b" : String) ≤ "a") := by
    simp only [String.le_iff_toList_le]
    decide
  have e1 : list_presets ⟨"d"⟩
      [(⟨"d", "b.json"⟩, .notJson), (⟨"d", "a.json"⟩, .notJson)] =
      List.insertionSort (· ≤ ·) ["b", "a"] := rfl
  rw [e1]
  simp [List.insertionSort, List.orderedInsert, hba]

/-- C8 counterexample: a valid JSON document with no `fields` key whose
tree_nodes has a node object missing its required keys — Load fails on
it rather than succeeding, so "Load succeeds on every valid document
without a fields key" is false as stated. -/
theorem C8_no_fields_cex :
    (Doc.fields? { tree_nodes? := some [("n", {})] }) = none ∧
    load ⟨"d"⟩ [(preset_path ⟨"d"⟩ "p", .json { tree_nodes? := some [("n", {})] })] "p" =
      .error .malformedDocument := by
  constructor
  · rfl
  · rfl

/-- C8 (amended): the absence of the `fields` key never by itself
affects whether Load succeeds, and whenever Load succeeds on a document
with no `fields` key the resulting preset's fields mapping is empty. -/
theorem C8_no_fields_empty :
    (∀ (st : Storage) (fs : FS) (name : String) (d : Doc) (P : Preset),
        lookupEntry fs (preset_path st name) = some (.json d) →
        d.fields? = none → load st fs name = .ok P → P.fields = []) ∧
    (∀ (name : String) (d : Doc),
        (loadDoc name { d with fields? := none }).isOk = (loadDoc name d).isOk) := by
  constructor
  · intro st fs name d P hl hf h
    rcases load_ok_elim st fs name P h with ⟨hn, _⟩ | ⟨d', hl', hld⟩
    · rw [hl] at hn
      exact Option.noConfusion hn
    · rw [hl] at hl'
      have hd : d' = d := (FileContent.json.inj (Option.some.inj hl')).symm
      rw [hd] at hld
      rcases loadDoc_ok_elim name d P hld with ⟨nodes, _, hP⟩
      subst hP
      simp [hf, loadFields]
  · intro name d
    unfold loadDoc
    cases hn : loadNodes (d.tree_nodes?.getD []) [] with
    | error e => rfl
    | ok nodes => rfl

/-- C8 witness: the amended theorem applied to a document with no
fields key (and no tree_nodes), loaded successfully. -/
theorem C8_no_fields_empty_witness :
    ({ name := "p", tree_nodes := [("root", defaultRoot "root")] } : Preset).fields = [] :=
  C8_no_fields_empty.1 ⟨"d"⟩ [(preset_path ⟨"d"⟩ "p", .json {})] "p" {}
    { name := "p", tree_nodes := [("root", defaultRoot "root")] } rfl rfl rfl

/-- C9: when a file exists, the loaded preset's name is the document's
`name` value when present (the requested name only when absent), and a
subsequent save of that preset lands at the path derived from the
document's name, not the requested one. -/
theorem C9_name_from_document :
    ∀ (st : Storage) (fs : FS) (name : String) (d : Doc) (P : Preset),
      lookupEntry fs (preset_path st name) = some (.json d) →
      load st fs name = .ok P →
      P.name = d.name?.getD name ∧
      ∀ fs2 : FS, lookupEntry (save st fs2 P) (preset_path st (d.name?.getD name)) =
        some (.json (presetDoc P)) := by
  intro st fs name d P hl h
  rcases load_ok_elim st fs name P h with ⟨hn, _⟩ | ⟨d', hl', hld⟩
  · rw [hl] at hn
    exact Option.noConfusion hn
  · rw [hl] at hl'
    have hd : d' = d := (FileContent.json.inj (Option.some.inj hl')).symm
    rw [hd] at hld
    rcases loadDoc_ok_elim name d P hld with ⟨nodes, _, hP⟩
    have hname : P.name = d.name?.getD name := by rw [hP]
    refine ⟨hname, fun fs2 => ?_⟩
    rw [← hname]
    exact lookup_save_self st fs2 P

/-- C9 witness: a file stored under "n.json" whose document carries the
name "other": the loaded preset is named "other" and saving it writes
to "other.json". -/
theorem C9_name_from_document_witness :
    ({ name := "other", tree_nodes := [("root", defaultRoot "root")] } : Preset).name =
        "other" ∧
    lookupEntry
        (save ⟨"d"⟩ [] { name := "other", tree_nodes := [("root", defaultRoot "root")] })
        (preset_path ⟨"d"⟩ "other") =
      some (.json (presetDoc
        { name := "other", tree_nodes := [("root", defaultRoot "root")] })) :=
  ⟨(C9_name_from_document ⟨"d"⟩ [(preset_path ⟨"d"⟩ "n", .json { name? := some "other" })]
      "n" { name? := some "other" }
      { name := "other", tree_nodes := [("root", defaultRoot "root")] }
      rfl rfl).1,
   (C9_name_from_document ⟨"d"⟩ [(preset_path ⟨"d"⟩ "n", .json { name? := some "other" })]
      "n" { name? := some "other" }
      { name := "other", tree_nodes := [("root", defaultRoot "root")] }
      rfl rfl).2 []⟩

/-- C10: key-id coherence — every Preset load returns maps each
tree_nodes key to a node whose `id` is that key, and each fields key to
a field whose `id` is that key (ids are derived from the mapping keys;
the serialized per-node and per-field objects carry no id). -/
theorem C10_key_id_coherence :
    ∀ (st : Storage) (fs : FS) (name : String) (P : Preset),
      load st fs name = .ok P →
      (∀ p ∈ P.tree_nodes, p.2.id = p.1) ∧ (∀ p ∈ P.fields, p.2.id = p.1) := by
  intro st fs name P h
  rcases load_ok_elim st fs name P h with ⟨_, hP⟩ | ⟨d, _, hld⟩
  · subst hP
    constructor
    · intro p hp
      have hp' : p = ("root", defaultRoot "root") := by
        simpa [freshPreset, setEntry] using hp
      rw [hp']
      rfl
    · intro p hp
      simp [freshPreset] at hp
  · rcases loadDoc_ok_elim name d P hld with ⟨nodes, hn, hP⟩
    subst hP
    constructor
    · intro p hp
      have hbase : ∀ q ∈ nodes, (Prod.snd q).id = Prod.fst q :=
        loadNodes_ok_id (d.tree_nodes?.getD []) [] nodes hn (by intro q hq; simp at hq)
      by_cases hc : containsKey nodes (d.root_id?.getD "root") = true
      · rw [show Preset.tree_nodes _ =
              (if containsKey nodes (d.root_id?.getD "root") then nodes
               else setEntry nodes (d.root_id?.getD "root")
                      (defaultRoot (d.root_id?.getD "root"))) from rfl, if_pos hc] at hp
        exact hbase p hp
      · simp only [Bool.not_eq_true] at hc
        rw [show Preset.tree_nodes _ =
              (if containsKey nodes (d.root_id?.getD "root") then nodes
               else setEntry nodes (d.root_id?.getD "root")
                      (defaultRoot (d.root_id?.getD "root"))) from rfl,
            if_neg (by simp [hc])] at hp
        rcases mem_setEntry nodes (d.root_id?.getD "root")
            (defaultRoot (d.root_id?.getD "root")) p hp with h' | h'
        · rw [h']
          rfl
        · exact hbase p h'
    · intro p hp
      exact loadFields_id (d.fields?.getD []) [] (by intro q hq; simp at hq) p hp

/-- C10 witness: the coherence theorem applied to a freshly loaded
preset and its root entry. -/
theorem C10_key_id_coherence_witness : (defaultRoot "root").id = "root" :=
  (C10_key_id_coherence ⟨"d"⟩ [] "p" (freshPreset "p") rfl).1
    ("root", defaultRoot "root") (by decide)
